import Mathlib

/-!
Shallow embedding of `parax/pipeline_parallel/three_d_parallel.py` (repository
EIFY/alpa): the donation analyzer `split_donate_invars`, the graph splitter
`split_compute_and_apply`, and the stage-to-mesh assignment fragment of
`three_d_parallel_callable`, together with theorems settling the spec claims.
-/

namespace ThreeDParallel

/-- Variables of the dataflow graph are identified by name; we use `Nat` ids. -/
abbrev Var := Nat

/-- A pipeline stage, as used by `split_donate_invars`: an ordered list of input
variables and output variables (`stage.invars`, `stage.outvars`). -/
structure JaxPipelineStage where
  invars : List Var
  outvars : List Var
deriving DecidableEq, Repr

instance : Inhabited JaxPipelineStage := ⟨⟨[], []⟩⟩

/-- Accumulator loop of lines 71-74: iterate stages in order with index `i`,
overwriting `global_last_use[var] = i` for every `var` in `stage.invars`;
the running dict value for one variable is threaded through as `acc`. -/
def gluFrom (v : Var) : Nat → List JaxPipelineStage → Option Nat → Option Nat
  | _, [], acc => acc
  | i, s :: rest, acc => gluFrom v (i + 1) rest (if v ∈ s.invars then some i else acc)

/-- `global_last_use` dict of `split_donate_invars` (lines 71-74): the index of
the last stage whose `invars` contain `v`, `none` when no stage reads `v`. -/
def global_last_use (stages : List JaxPipelineStage) (v : Var) : Option Nat :=
  gluFrom v 0 stages none

/-- The comparison `global_last_use[var] > stage_idx` of line 94. A `none`
lookup cannot occur on the reachable path (the var is an invar of the stage at
`stage_idx`), and is rendered as `false`. -/
def last_use_after (stages : List JaxPipelineStage) (stage_idx : Nat) (v : Var) : Bool :=
  match global_last_use stages v with
  | some j => decide (stage_idx < j)
  | none => false

/-- Body of the per-stage loop, lines 87-97: one boolean per input variable.
`False` when the var is a non-donated global or used later in this serial walk,
or is a main-copy var whose global last use is strictly after this stage. -/
def stage_donate_status (not_donated use_later main_copy_vars : List Var)
    (stages : List JaxPipelineStage) (stage_idx : Nat) (invars : List Var) : List Bool :=
  invars.map fun var =>
    if var ∈ not_donated ∨ var ∈ use_later then false
    else if var ∈ main_copy_vars ∧ last_use_after stages stage_idx var then false
    else true

/-- Reverse serial walk of lines 85-99: process the (already reversed) index
list, writing each stage's status into `ans` and adding its invars to
`use_later`. -/
def process_serial (stages : List JaxPipelineStage) (not_donated main_copy_vars : List Var) :
    List Nat → List (Option (List Bool)) → List Var → List (Option (List Bool))
  | [], ans, _ => ans
  | stage_idx :: rest, ans, use_later =>
    let invars := (stages.getD stage_idx default).invars
    let status := stage_donate_status not_donated use_later main_copy_vars stages stage_idx invars
    process_serial stages not_donated main_copy_vars rest
      (ans.set stage_idx (some status)) (use_later ++ invars)

/-- `main_copy_vars` accumulation of lines 80-82: all outvars of the group. -/
def main_copy_of (stages : List JaxPipelineStage) (sorted_group : List Nat) : List Var :=
  sorted_group.foldl (fun acc i => acc ++ (stages.getD i default).outvars) []

/-- One iteration of the `for serial_group in pattern` loop (lines 78-99):
sort the group ascending (`sorted`), collect its outvars as main-copy vars,
then walk it reversed with a fresh `use_later`. -/
def process_group (stages : List JaxPipelineStage) (not_donated : List Var)
    (ans : List (Option (List Bool))) (serial_group : List Nat) : List (Option (List Bool)) :=
  let sorted_group := List.insertionSort (· ≤ ·) serial_group
  process_serial stages not_donated (main_copy_of stages sorted_group)
    sorted_group.reverse ans []

/-- `not_donated` set of lines 64-69: global invars whose donation flag is
false, paired positionally (valid calls have equally long lists). -/
def not_donated_of (donated_invars : List Bool) (global_invars : List Var) : List Var :=
  (donated_invars.zip global_invars).filterMap fun p => if p.1 then none else some p.2

/-- `split_donate_invars` (lines 47-100): `ans` starts as `[None] * len(stages)`
and each serial group of `pattern` fills in the entries of its stages. -/
def split_donate_invars (donated_invars : List Bool) (global_invars : List Var)
    (stages : List JaxPipelineStage) (pattern : List (List Nat)) :
    List (Option (List Bool)) :=
  pattern.foldl (process_group stages (not_donated_of donated_invars global_invars))
    (List.replicate stages.length none)

/-- Graph equations: a primitive tag (only `pipeline_p` matters here) plus the
`mark_type` parameter pipeline equations carry, and variable lists. -/
inductive JPrimitive
  | pipeline
  | other (name : Nat)
deriving DecidableEq, Repr

structure JEqn where
  primitive : JPrimitive
  mark_type : Option String
  invars : List Var
  outvars : List Var
deriving DecidableEq, Repr

instance : Inhabited JEqn := ⟨⟨JPrimitive.other 0, none, [], []⟩⟩

/-- Line 31: `eqn.primitive is pipeline_p and eqn.params[\x27mark_type\x27] == \x27grad\x27`. -/
def is_grad_marker (e : JEqn) : Bool :=
  e.primitive == JPrimitive.pipeline && e.mark_type == some "grad"

/-- `Jaxpr(constvars, invars, outvars, eqns)`. -/
structure Jaxpr where
  constvars : List Var
  invars : List Var
  outvars : List Var
  eqns : List JEqn
deriving DecidableEq, Repr

/-- `ClosedJaxpr(jaxpr, consts)`; constants are uninterpreted values, modelled
as ids. -/
structure ClosedJaxpr where
  jaxpr : Jaxpr
  consts : List Nat
deriving DecidableEq, Repr

/-- The scan of lines 29-33: enumerate the equations, remembering the index and
equation of the latest gradient marker seen. -/
def find_split_from : Nat → Option (Nat × JEqn) → List JEqn → Option (Nat × JEqn)
  | _, acc, [] => acc
  | i, acc, e :: rest =>
    find_split_from (i + 1) (if is_grad_marker e then some (i, e) else acc) rest

def find_split (eqns : List JEqn) : Option (Nat × JEqn) :=
  find_split_from 0 none eqns

def slice_outvars (es : List JEqn) : List Var := es.flatMap (fun e => e.outvars)

def slice_free_invars : List JEqn → List Var
  | [] => []
  | e :: rest => e.invars ++ (slice_free_invars rest).filter (fun v => ¬ v ∈ e.outvars)

/-- Modelled from the spec: `slices_to_jaxpr` lives in `parax.util`, which is not
part of the provided sources. The spec only constrains that the graph returned
for a slice is "built from exactly" that slice's equations (§4.3), so the model
keeps the slice's equation list verbatim and derives boundary variables as the
slice's free input variables and produced output variables. -/
def slice_to_jaxpr (es : List JEqn) : ClosedJaxpr :=
  { jaxpr := { constvars := [], invars := slice_free_invars es,
               outvars := slice_outvars es, eqns := es },
    consts := [] }

/-- `ClosedJaxpr(Jaxpr([], [], [], []), [])` of line 38. -/
def empty_closed_jaxpr : ClosedJaxpr :=
  { jaxpr := { constvars := [], invars := [], outvars := [], eqns := [] }, consts := [] }

/-- `split_compute_and_apply` (lines 27-44): find the last gradient marker;
without one return the whole graph, an empty graph and no barrier; with one,
return the graphs built from the equations before it and after it, plus the
marker itself. -/
def split_compute_and_apply (closed_jaxpr : ClosedJaxpr) :
    ClosedJaxpr × ClosedJaxpr × Option JEqn :=
  match find_split closed_jaxpr.jaxpr.eqns with
  | none => (closed_jaxpr, empty_closed_jaxpr, none)
  | some (split_idx, split_eqn) =>
    (slice_to_jaxpr (closed_jaxpr.jaxpr.eqns.take split_idx),
     slice_to_jaxpr (closed_jaxpr.jaxpr.eqns.drop (split_idx + 1)),
     some split_eqn)

/-- Whether the call hits the `logger.warning` branch of lines 34-37: exactly
when no gradient marker is present. -/
def split_missing_barrier_warning (closed_jaxpr : ClosedJaxpr) : Bool :=
  (find_split closed_jaxpr.jaxpr.eqns).isNone

/-- The dict comprehension of lines 147-150. Python evaluates
`i < stage_num / 2` with real division; over the integers `i < n / 2` in ℝ is
exactly `2 * i < n`, which is how the guard is rendered here. -/
def stage_to_mesh_entry (stage_num i : Nat) : Nat :=
  if 2 * i < stage_num then i else stage_num - i - 1

/-- Lines 146-152 of `three_d_parallel_callable`: build the stage-to-mesh map,
`assert stage_num % 2 == 0` (a failed assertion is a construction error raised
to the caller, modelled as `Except.error`), and compute `mesh_num`. -/
def stage_placement (stage_num : Nat) : Except String (List Nat × Nat) :=
  let stage_to_mesh := (List.range stage_num).map (stage_to_mesh_entry stage_num)
  if stage_num % 2 = 0 then Except.ok (stage_to_mesh, stage_num / 2)
  else Except.error "stage_num % 2 == 0"

/-- Structural description of the `global_last_use` dict value for `v`: the
index of the last stage whose invars contain `v`, counted from the front. -/
def last_use_in (v : Var) : List JaxPipelineStage → Option Nat
  | [] => none
  | s :: rest =>
    match last_use_in v rest with
    | some j => some (j + 1)
    | none => if v ∈ s.invars then some 0 else none

lemma gluFrom_eq (v : Var) (l : List JaxPipelineStage) :
    ∀ (i : Nat) (acc : Option Nat),
      gluFrom v i l acc = (last_use_in v l).elim acc (fun j => some (i + j)) := by
  induction l with
  | nil => intro i acc; rfl
  | cons s rest ih =>
    intro i acc
    rw [gluFrom, ih]
    cases h : last_use_in v rest with
    | some j =>
      simp only [last_use_in, h, Option.elim]
      congr 1
      omega
    | none =>
      by_cases hv : v ∈ s.invars <;> simp [last_use_in, h, hv]

lemma global_last_use_eq (stages : List JaxPipelineStage) (v : Var) :
    global_last_use stages v = last_use_in v stages := by
  rw [global_last_use, gluFrom_eq]
  cases last_use_in v stages <;> simp

lemma last_use_in_none (v : Var) :
    ∀ (l : List JaxPipelineStage), last_use_in v l = none →
      ∀ k, k < l.length → v ∉ (l.getD k default).invars := by
  intro l
  induction l with
  | nil => intro _ k hk; simp at hk
  | cons s rest ih =>
    intro h k hk
    rw [last_use_in] at h
    cases hr : last_use_in v rest with
    | some j0 => rw [hr] at h; simp at h
    | none =>
      rw [hr] at h
      by_cases hv : v ∈ s.invars
      · rw [if_pos hv] at h; simp at h
      · cases k with
        | zero => simpa using hv
        | succ k0 =>
          simp only [List.getD_cons_succ]
          exact ih hr k0 (by simp only [List.length_cons] at hk; omega)

lemma last_use_in_spec (v : Var) :
    ∀ (l : List JaxPipelineStage) (j : Nat), last_use_in v l = some j →
      j < l.length ∧ v ∈ (l.getD j default).invars ∧
        ∀ k, j < k → k < l.length → v ∉ (l.getD k default).invars := by
  intro l
  induction l with
  | nil => intro j h; simp [last_use_in] at h
  | cons s rest ih =>
    intro j h
    rw [last_use_in] at h
    cases hr : last_use_in v rest with
    | some j0 =>
      rw [hr] at h
      injection h with h
      subst h
      obtain ⟨h1, h2, h3⟩ := ih j0 hr
      refine ⟨by simp only [List.length_cons]; omega, by simpa [List.getD_cons_succ] using h2, ?_⟩
      intro k hk hkl
      cases k with
      | zero => omega
      | succ k0 =>
        simp only [List.getD_cons_succ]
        exact h3 k0 (by omega) (by simp only [List.length_cons] at hkl; omega)
    | none =>
      rw [hr] at h
      by_cases hv : v ∈ s.invars
      · rw [if_pos hv] at h
        injection h with h
        subst h
        refine ⟨by simp, by simpa using hv, ?_⟩
        intro k hk hkl
        cases k with
        | zero => omega
        | succ k0 =>
          simp only [List.getD_cons_succ]
          exact last_use_in_none v rest hr k0 (by simp only [List.length_cons] at hkl; omega)
      · rw [if_neg hv] at h; simp at h

lemma last_use_in_of_mem (v : Var) :
    ∀ (l : List JaxPipelineStage) (i : Nat), i < l.length →
      v ∈ (l.getD i default).invars →
      ∃ j, last_use_in v l = some j ∧ i ≤ j := by
  intro l
  induction l with
  | nil => intro i hi; simp at hi
  | cons s rest ih =>
    intro i hi hv
    cases hr : last_use_in v rest with
    | some j0 =>
      refine ⟨j0 + 1, by rw [last_use_in, hr], ?_⟩
      cases i with
      | zero => omega
      | succ k =>
        obtain ⟨j, hj, hk⟩ := ih k (by simp only [List.length_cons] at hi; omega)
          (by simpa [List.getD_cons_succ] using hv)
        rw [hr] at hj
        injection hj with hj
        omega
    | none =>
      cases i with
      | zero =>
        exact ⟨0, by rw [last_use_in, hr, if_pos (by simpa using hv)], Nat.le_refl 0⟩
      | succ k =>
        exact absurd (by simpa [List.getD_cons_succ] using hv)
          (last_use_in_none v rest hr k (by simp only [List.length_cons] at hi; omega))

lemma global_last_use_spec {stages : List JaxPipelineStage} {v : Var} {j : Nat}
    (h : global_last_use stages v = some j) :
    j < stages.length ∧ v ∈ (stages.getD j default).invars ∧
      ∀ k, j < k → k < stages.length → v ∉ (stages.getD k default).invars := by
  rw [global_last_use_eq] at h
  exact last_use_in_spec v stages j h

lemma global_last_use_of_mem {stages : List JaxPipelineStage} {v : Var} {i : Nat}
    (hi : i < stages.length) (hv : v ∈ (stages.getD i default).invars) :
    ∃ j, global_last_use stages v = some j ∧ i ≤ j := by
  rw [global_last_use_eq]
  exact last_use_in_of_mem v stages i hi hv

/-- The specification's description of "true last use by global stage position
across ALL groups": stage `l` reads `v` and no stage after it does. -/
def spec_last_use (stages : List JaxPipelineStage) (v : Var) (l : Nat) : Prop :=
  l < stages.length ∧ v ∈ (stages.getD l default).invars ∧
    ∀ k, l < k → k < stages.length → v ∉ (stages.getD k default).invars

lemma last_use_after_iff {stages : List JaxPipelineStage} {i : Nat} {v : Var} :
    last_use_after stages i v = true ↔ ∃ l, spec_last_use stages v l ∧ i < l := by
  constructor
  · intro h
    unfold last_use_after at h
    cases hg : global_last_use stages v with
    | none => rw [hg] at h; simp at h
    | some j =>
      rw [hg] at h
      exact ⟨j, global_last_use_spec hg, by simpa using h⟩
  · rintro ⟨l, ⟨hl, hv, hmax⟩, hil⟩
    obtain ⟨j, hj, hlj⟩ := global_last_use_of_mem hl hv
    have hjl : j = l := by
      by_contra hne
      have hlt : l < j := lt_of_le_of_ne hlj (fun e => hne e.symm)
      exact hmax j hlt (global_last_use_spec hj).1 (global_last_use_spec hj).2.1
    unfold last_use_after
    rw [hj, hjl]
    simpa using hil

lemma last_use_after_self {stages : List JaxPipelineStage} {v : Var} {j : Nat}
    (hj : global_last_use stages v = some j) : last_use_after stages j v = false := by
  unfold last_use_after
  rw [hj]
  simp

lemma process_serial_length (stages : List JaxPipelineStage) (nd mc : List Var) :
    ∀ (idxs : List Nat) (ans : List (Option (List Bool))) (ul : List Var),
      (process_serial stages nd mc idxs ans ul).length = ans.length := by
  intro idxs
  induction idxs with
  | nil => intro ans ul; rfl
  | cons j rest ih =>
    intro ans ul
    rw [process_serial, ih]
    simp

lemma process_serial_getElem?_not_mem (stages : List JaxPipelineStage) (nd mc : List Var)
    {i : Nat} :
    ∀ (idxs : List Nat) (ans : List (Option (List Bool))) (ul : List Var), i ∉ idxs →
      (process_serial stages nd mc idxs ans ul)[i]? = ans[i]? := by
  intro idxs
  induction idxs with
  | nil => intro ans ul _; rfl
  | cons j rest ih =>
    intro ans ul h
    rw [process_serial, ih _ _ (fun hm => h (List.mem_cons_of_mem j hm))]
    exact List.getElem?_set_ne
      (fun e => h (by rw [← e]; exact List.mem_cons_self j rest))

lemma process_serial_getElem?_mem (stages : List JaxPipelineStage) (nd mc : List Var)
    {i : Nat} :
    ∀ (pre post : List Nat) (ans : List (Option (List Bool))) (ul : List Var),
      (pre ++ i :: post).Nodup → i < ans.length →
      (process_serial stages nd mc (pre ++ i :: post) ans ul)[i]? =
        some (some (stage_donate_status nd
          (ul ++ pre.flatMap fun j => (stages.getD j default).invars) mc stages i
          (stages.getD i default).invars)) := by
  intro pre
  induction pre with
  | nil =>
    intro post ans ul hnd hlen
    rw [List.nil_append] at hnd ⊢
    rw [process_serial]
    have hip : i ∉ post := (List.nodup_cons.mp hnd).1
    rw [process_serial_getElem?_not_mem stages nd mc post _ _ hip,
      List.getElem?_set_self hlen]
    simp
  | cons j pre0 ih =>
    intro post ans ul hnd hlen
    rw [List.cons_append, process_serial]
    have hnd0 : (pre0 ++ i :: post).Nodup :=
      (List.nodup_cons.mp (by simpa using hnd)).2
    rw [ih post _ _ hnd0 (by simpa using hlen)]
    simp [List.append_assoc]

/-- Every filled-in entry of the analyzer result is the status list the
per-stage loop computes for that stage's invars, for some `use_later` and
`main_copy_vars` contents. -/
def is_status_image (nd : List Var) (stages : List JaxPipelineStage)
    (r : List (Option (List Bool))) : Prop :=
  ∀ i st, r[i]? = some (some st) →
    ∃ ul mc, st = stage_donate_status nd ul mc stages i (stages.getD i default).invars

lemma process_serial_status_image (stages : List JaxPipelineStage) (nd mc : List Var) :
    ∀ (idxs : List Nat) (ans : List (Option (List Bool))) (ul : List Var),
      is_status_image nd stages ans →
      is_status_image nd stages (process_serial stages nd mc idxs ans ul) := by
  intro idxs
  induction idxs with
  | nil => intro ans ul h; exact h
  | cons j rest ih =>
    intro ans ul h
    rw [process_serial]
    apply ih
    intro i st hst
    rcases Decidable.em (j = i) with he | hne
    · subst he
      by_cases hj : j < ans.length
      · rw [List.getElem?_set_self hj] at hst
        injection hst with hst
        injection hst with hst
        exact ⟨ul, mc, hst.symm⟩
      · rw [List.set_eq_of_length_le (by omega)] at hst
        exact h _ _ hst
    · rw [List.getElem?_set_ne hne] at hst
      exact h _ _ hst

lemma mem_sorted_group_iff {g : List Nat} {i : Nat} :
    i ∈ List.insertionSort (· ≤ ·) g ↔ i ∈ g :=
  (List.perm_insertionSort _ g).mem_iff

lemma process_group_length (stages : List JaxPipelineStage) (nd : List Var)
    (ans : List (Option (List Bool))) (g : List Nat) :
    (process_group stages nd ans g).length = ans.length := by
  simp only [process_group]
  exact process_serial_length _ _ _ _ _ _

lemma process_group_getElem?_not_mem (stages : List JaxPipelineStage) (nd : List Var)
    {i : Nat} (ans : List (Option (List Bool))) (g : List Nat) (h : i ∉ g) :
    (process_group stages nd ans g)[i]? = ans[i]? := by
  simp only [process_group]
  apply process_serial_getElem?_not_mem
  intro hm
  exact h (mem_sorted_group_iff.mp (List.mem_reverse.mp hm))

lemma foldl_process_group_length (stages : List JaxPipelineStage) (nd : List Var) :
    ∀ (P : List (List Nat)) (ans : List (Option (List Bool))),
      (P.foldl (process_group stages nd) ans).length = ans.length := by
  intro P
  induction P with
  | nil => intro ans; rfl
  | cons g P0 ih =>
    intro ans
    rw [List.foldl_cons, ih, process_group_length]

lemma foldl_process_group_not_mem (stages : List JaxPipelineStage) (nd : List Var)
    {i : Nat} :
    ∀ (P : List (List Nat)) (ans : List (Option (List Bool))), (∀ g ∈ P, i ∉ g) →
      (P.foldl (process_group stages nd) ans)[i]? = ans[i]? := by
  intro P
  induction P with
  | nil => intro ans _; rfl
  | cons g P0 ih =>
    intro ans h
    rw [List.foldl_cons, ih _ (fun g2 hg2 => h g2 (List.mem_cons_of_mem g hg2)),
      process_group_getElem?_not_mem stages nd ans g (h g (List.mem_cons_self g P0))]

/-- The three reasons the analyzer refuses to donate `v` at stage `i` of serial
group `g`: non-donated global, used by a later stage of the same group, or a
main-copy variable of the group whose global last use is after stage `i`. -/
def not_donatable_cond (nd : List Var) (stages : List JaxPipelineStage)
    (g : List Nat) (i : Nat) (v : Var) : Prop :=
  v ∈ nd ∨
  (∃ j ∈ g, i < j ∧ v ∈ (stages.getD j default).invars) ∨
  ((∃ j ∈ g, v ∈ (stages.getD j default).outvars) ∧ last_use_after stages i v = true)

lemma mem_main_copy_aux (stages : List JaxPipelineStage) :
    ∀ (l : List Nat) (acc : List Var) (v : Var),
      v ∈ l.foldl (fun acc i => acc ++ (stages.getD i default).outvars) acc ↔
        v ∈ acc ∨ ∃ j ∈ l, v ∈ (stages.getD j default).outvars := by
  intro l
  induction l with
  | nil => intro acc v; simp
  | cons j l0 ih =>
    intro acc v
    rw [List.foldl_cons, ih]
    simp only [List.mem_append, List.exists_mem_cons_iff]
    tauto

lemma mem_main_copy_of_iff {stages : List JaxPipelineStage} {g : List Nat} {v : Var} :
    v ∈ main_copy_of stages (List.insertionSort (· ≤ ·) g) ↔
      ∃ j ∈ g, v ∈ (stages.getD j default).outvars := by
  rw [main_copy_of, mem_main_copy_aux]
  simp only [List.not_mem_nil, false_or]
  exact ⟨fun ⟨j, hj, hv⟩ => ⟨j, mem_sorted_group_iff.mp hj, hv⟩,
    fun ⟨j, hj, hv⟩ => ⟨j, mem_sorted_group_iff.mpr hj, hv⟩⟩

lemma sorted_reverse_decomp {g : List Nat} (hnd : g.Nodup) {pre post : List Nat} {i : Nat}
    (hdec : (List.insertionSort (· ≤ ·) g).reverse = pre ++ i :: post) :
    ∀ j, j ∈ pre ↔ (j ∈ g ∧ i < j) := by
  have hsorted : (List.insertionSort (· ≤ ·) g).Sorted (· ≤ ·) :=
    List.sorted_insertionSort _ g
  have hndg : (List.insertionSort (· ≤ ·) g).Nodup :=
    ((List.perm_insertionSort _ g).nodup_iff).mpr hnd
  have hlt : (List.insertionSort (· ≤ ·) g).Sorted (· < ·) := hsorted.lt_of_le hndg
  have hrev : ((List.insertionSort (· ≤ ·) g).reverse).Pairwise (fun a b => b < a) :=
    List.pairwise_reverse.mpr hlt
  rw [hdec, List.pairwise_append] at hrev
  obtain ⟨hpre, hcons, hcross⟩ := hrev
  intro j
  constructor
  · intro hj
    refine ⟨?_, hcross j hj i (List.mem_cons_self i post)⟩
    have hjr : j ∈ pre ++ i :: post := List.mem_append_left _ hj
    rw [← hdec] at hjr
    exact mem_sorted_group_iff.mp (List.mem_reverse.mp hjr)
  · rintro ⟨hjg, hij⟩
    have hjrev : j ∈ pre ++ i :: post := by
      rw [← hdec]
      exact List.mem_reverse.mpr (mem_sorted_group_iff.mpr hjg)
    rcases List.mem_append.mp hjrev with h | h
    · exact h
    · rcases List.mem_cons.mp h with he | hpost
      · omega
      · have := (List.pairwise_cons.mp hcons).1 j hpost
        omega

/-- Main characterization of `split_donate_invars` on a valid call (the pattern
partitions the stage indices): stage `i` belongs to exactly one serial group
`g`, its answer slot is filled with a boolean list parallel to its invars, and
position `k` (holding variable `v`) is `true` exactly when none of the three
refusal conditions applies. -/
lemma split_donate_invars_char (donated_invars : List Bool) (global_invars : List Var)
    (stages : List JaxPipelineStage) (pattern : List (List Nat))
    (hvalid : pattern.flatten.Perm (List.range stages.length))
    (i : Nat) (hi : i < stages.length) :
    ∃ g, g ∈ pattern ∧ i ∈ g ∧ ∃ st : List Bool,
      (split_donate_invars donated_invars global_invars stages pattern)[i]? =
        some (some st) ∧
      st.length = (stages.getD i default).invars.length ∧
      ∀ (k : Nat) (v : Var), ((stages.getD i default).invars)[k]? = some v →
        (st[k]? = some true ↔
          ¬ not_donatable_cond (not_donated_of donated_invars global_invars)
              stages g i v) := by
  classical
  have hiflat : i ∈ pattern.flatten := hvalid.mem_iff.mpr (List.mem_range.mpr hi)
  obtain ⟨g, hg, hig⟩ := List.mem_flatten.mp hiflat
  refine ⟨g, hg, hig, ?_⟩
  have hflat_nodup : pattern.flatten.Nodup := hvalid.nodup_iff.mpr (List.nodup_range _)
  obtain ⟨P1, P2, hP⟩ := List.append_of_mem hg
  have hflat_nodup2 : (P1.flatten ++ (g ++ P2.flatten)).Nodup := by
    rw [hP, List.flatten_append, List.flatten_cons] at hflat_nodup
    exact hflat_nodup
  have hgP2 : (g ++ P2.flatten).Nodup := (List.nodup_append.mp hflat_nodup2).2.1
  have hgnd : g.Nodup := (List.nodup_append.mp hgP2).1
  have hdisj : g.Disjoint P2.flatten := (List.nodup_append.mp hgP2).2.2
  have hiP2 : ∀ g2 ∈ P2, i ∉ g2 := by
    intro g2 hg2 hig2
    exact hdisj hig (List.mem_flatten.mpr ⟨g2, hg2, hig2⟩)
  have hbound : ∀ j ∈ g, j < stages.length := by
    intro j hj
    have : j ∈ pattern.flatten := List.mem_flatten.mpr ⟨g, hg, hj⟩
    exact List.mem_range.mp (hvalid.mem_iff.mp this)
  -- run the fold up to and including the group of `i`
  rw [split_donate_invars, hP, List.foldl_append, List.foldl_cons,
    foldl_process_group_not_mem _ _ P2 _ hiP2]
  have hA1len :
      (P1.foldl (process_group stages (not_donated_of donated_invars global_invars))
        (List.replicate stages.length none)).length = stages.length := by
    rw [foldl_process_group_length, List.length_replicate]
  have hirev : i ∈ (List.insertionSort (· ≤ ·) g).reverse :=
    List.mem_reverse.mpr (mem_sorted_group_iff.mpr hig)
  obtain ⟨pre, post, hdec⟩ := List.append_of_mem hirev
  have hrevnd : ((List.insertionSort (· ≤ ·) g).reverse).Nodup :=
    List.nodup_reverse.mpr (((List.perm_insertionSort _ g).nodup_iff).mpr hgnd)
  simp only [process_group]
  rw [hdec]
  rw [process_serial_getElem?_mem _ _ _ pre post _ _ (hdec ▸ hrevnd) (by rw [hA1len]; exact hi)]
  refine ⟨_, rfl, by simp [stage_donate_status], ?_⟩
  intro k v hkv
  rw [stage_donate_status, List.getElem?_map, hkv]
  simp only [Option.map_some', List.nil_append]
  have hUL : v ∈ (pre.flatMap fun j => (stages.getD j default).invars) ↔
      ∃ j ∈ g, i < j ∧ v ∈ (stages.getD j default).invars := by
    rw [List.mem_flatMap]
    constructor
    · rintro ⟨j, hj, hv⟩
      obtain ⟨hjg, hij⟩ := (sorted_reverse_decomp hgnd hdec j).mp hj
      exact ⟨j, hjg, hij, hv⟩
    · rintro ⟨j, hjg, hij, hv⟩
      exact ⟨j, (sorted_reverse_decomp hgnd hdec j).mpr ⟨hjg, hij⟩, hv⟩
  by_cases h1 : v ∈ not_donated_of donated_invars global_invars ∨
      v ∈ (pre.flatMap fun j => (stages.getD j default).invars)
  · rw [if_pos h1]
    simp only [not_donatable_cond]
    constructor
    · intro h; exact absurd h (by simp)
    · intro h
      exfalso
      apply h
      rcases h1 with h1 | h1
      · exact Or.inl h1
      · exact Or.inr (Or.inl (hUL.mp h1))
  · rw [if_neg h1]
    by_cases h2 : v ∈ main_copy_of stages (List.insertionSort (· ≤ ·) g) ∧
        last_use_after stages i v = true
    · rw [if_pos h2]
      simp only [not_donatable_cond]
      constructor
      · intro h; exact absurd h (by simp)
      · intro h
        exfalso
        exact h (Or.inr (Or.inr ⟨mem_main_copy_of_iff.mp h2.1, h2.2⟩))
    · rw [if_neg h2]
      simp only [not_donatable_cond]
      constructor
      · intro _ hcond
        rcases hcond with hc | hc | hc
        · exact h1 (Or.inl hc)
        · exact h1 (Or.inr (hUL.mpr hc))
        · exact h2 ⟨mem_main_copy_of_iff.mpr hc.1, hc.2⟩
      · intro _; trivial

lemma foldl_process_group_status_image (stages : List JaxPipelineStage) (nd : List Var) :
    ∀ (P : List (List Nat)) (ans : List (Option (List Bool))),
      is_status_image nd stages ans →
      is_status_image nd stages (P.foldl (process_group stages nd) ans) := by
  intro P
  induction P with
  | nil => intro ans h; exact h
  | cons g P0 ih =>
    intro ans h
    rw [List.foldl_cons]
    apply ih
    simp only [process_group]
    exact process_serial_status_image _ _ _ _ _ _ h

lemma split_donate_invars_status_image (donated_invars : List Bool)
    (global_invars : List Var) (stages : List JaxPipelineStage)
    (pattern : List (List Nat)) :
    is_status_image (not_donated_of donated_invars global_invars) stages
      (split_donate_invars donated_invars global_invars stages pattern) := by
  rw [split_donate_invars]
  apply foldl_process_group_status_image
  intro i st hst
  rw [List.getElem?_replicate] at hst
  by_cases hi : i < stages.length
  · rw [if_pos hi] at hst
    exact absurd hst (by simp)
  · rw [if_neg hi] at hst
    exact absurd hst (by simp)

lemma split_donate_invars_length (donated_invars : List Bool)
    (global_invars : List Var) (stages : List JaxPipelineStage)
    (pattern : List (List Nat)) :
    (split_donate_invars donated_invars global_invars stages pattern).length =
      stages.length := by
  rw [split_donate_invars, foldl_process_group_length, List.length_replicate]

/-- Spec-worded description of "a global input whose caller-supplied donation
flag is false": some position of the global-input list holds `v` and the
donation-flag tuple says `false` there. -/
def spec_global_not_donated (donated_invars : List Bool) (global_invars : List Var)
    (v : Var) : Prop :=
  ∃ idx : Nat, donated_invars[idx]? = some false ∧ global_invars[idx]? = some v

lemma mem_not_donated_of_iff {donated_invars : List Bool} {global_invars : List Var}
    {v : Var} :
    v ∈ not_donated_of donated_invars global_invars ↔
      spec_global_not_donated donated_invars global_invars v := by
  rw [not_donated_of, List.mem_filterMap]
  constructor
  · rintro ⟨⟨b, w⟩, hmem, hf⟩
    by_cases hb : b
    · rw [if_pos hb] at hf
      exact absurd hf (by simp)
    · rw [if_neg hb] at hf
      injection hf with hf
      subst hf
      obtain ⟨idx, hidx⟩ := List.mem_iff_getElem?.mp hmem
      rw [List.getElem?_zip_eq_some] at hidx
      have hb2 : b = false := by cases b <;> simp_all
      exact ⟨idx, by rw [hidx.1, hb2], hidx.2⟩
  · rintro ⟨idx, hd, hg⟩
    refine ⟨(false, v), ?_, by simp⟩
    rw [List.mem_iff_getElem?]
    exact ⟨idx, List.getElem?_zip_eq_some.mpr ⟨hd, hg⟩⟩

/-- In a pattern whose flattening has no duplicates, a stage index belongs to
at most one serial group. -/
lemma group_unique {pattern : List (List Nat)} (hnd : pattern.flatten.Nodup)
    {g g2 : List Nat} (hg : g ∈ pattern) (hg2 : g2 ∈ pattern) {i : Nat}
    (hig : i ∈ g) (hig2 : i ∈ g2) : g = g2 := by
  by_contra hne
  have hsym : Symmetric (List.Disjoint (α := Nat)) := fun a b h => h.symm
  have hpw : pattern.Pairwise List.Disjoint := (List.nodup_flatten.mp hnd).2
  exact (hpw.forall hsym hg hg2 hne) hig hig2

lemma insertionSort_eq_of_perm {g1 g2 : List Nat} (hp : g1.Perm g2) :
    List.insertionSort (· ≤ ·) g1 = List.insertionSort (· ≤ ·) g2 :=
  List.eq_of_perm_of_sorted
    ((List.perm_insertionSort _ g1).trans (hp.trans (List.perm_insertionSort _ g2).symm))
    (List.sorted_insertionSort _ g1) (List.sorted_insertionSort _ g2)

/-- Stage `i` of the analyzer result marks variable `v` donatable: some
position of the stage's invar list holds `v` and the returned boolean there is
`true`. -/
def marked_donatable (stages : List JaxPipelineStage) (r : List (Option (List Bool)))
    (i : Nat) (v : Var) : Prop :=
  ∃ st : List Bool, ∃ k : Nat, r[i]? = some (some st) ∧
    ((stages.getD i default).invars)[k]? = some v ∧ st[k]? = some true

/-- The donation-refusal rule in the specification's own words: (a) non-donated
global input, (b) read by a later stage of the same serial group, (c) a
main-copy variable of the group whose true last use (by global stage position
across all groups) is strictly after the current stage. -/
def spec_not_donatable (donated_invars : List Bool) (global_invars : List Var)
    (stages : List JaxPipelineStage) (g : List Nat) (i : Nat) (v : Var) : Prop :=
  spec_global_not_donated donated_invars global_invars v ∨
  (∃ j ∈ g, i < j ∧ v ∈ (stages.getD j default).invars) ∨
  ((∃ j ∈ g, v ∈ (stages.getD j default).outvars) ∧
    ∃ l, spec_last_use stages v l ∧ i < l)

lemma not_donatable_cond_iff_spec {donated_invars : List Bool}
    {global_invars : List Var} {stages : List JaxPipelineStage} {g : List Nat}
    {i : Nat} {v : Var} :
    not_donatable_cond (not_donated_of donated_invars global_invars) stages g i v ↔
      spec_not_donatable donated_invars global_invars stages g i v := by
  rw [not_donatable_cond, spec_not_donatable, mem_not_donated_of_iff,
    last_use_after_iff]

/-- Claim C1: for every valid input to the donation analyzer and every
variable, any stage that marks the variable donatable is matched by a stage at
least as late (the variable's globally last reading stage) that also marks it
donatable, so the last true-donation mark occurs at or after every stage whose
input list contains the variable. -/
theorem claim_C1_last_donation_after_all_reads (donated_invars : List Bool)
    (global_invars : List Var) (stages : List JaxPipelineStage)
    (pattern : List (List Nat))
    (hvalid : pattern.flatten.Perm (List.range stages.length))
    (v : Var) (i j : Nat)
    (hmark : marked_donatable stages
      (split_donate_invars donated_invars global_invars stages pattern) i v)
    (hj : j < stages.length) (hread : v ∈ (stages.getD j default).invars) :
    ∃ m, j ≤ m ∧ marked_donatable stages
      (split_donate_invars donated_invars global_invars stages pattern) m v := by
  obtain ⟨st, k, hst, hkv, htrue⟩ := hmark
  have hilen : i < stages.length := by
    obtain ⟨hlt, _⟩ := List.getElem?_eq_some_iff.mp hst
    rwa [split_donate_invars_length] at hlt
  obtain ⟨gi, hgi, higi, sti, hsti, _, hiff⟩ :=
    split_donate_invars_char donated_invars global_invars stages pattern hvalid i hilen
  have hsi : sti = st := by
    rw [hst] at hsti
    injection hsti with h1
    injection h1 with h1
    exact h1.symm
  subst hsi
  have hnd : v ∉ not_donated_of donated_invars global_invars := by
    intro hvn
    exact ((hiff k v hkv).mp htrue) (Or.inl hvn)
  obtain ⟨J, hJ, hjJ⟩ := global_last_use_of_mem hj hread
  obtain ⟨hJlen, hJmem, hJmax⟩ := global_last_use_spec hJ
  obtain ⟨gJ, hgJ, hJgJ, stJ, hstJ, _, hiffJ⟩ :=
    split_donate_invars_char donated_invars global_invars stages pattern hvalid J hJlen
  obtain ⟨kJ, hkJ⟩ := List.mem_iff_getElem?.mp hJmem
  refine ⟨J, hjJ, stJ, kJ, hstJ, hkJ, ?_⟩
  rw [hiffJ kJ v hkJ]
  rintro (hc | hc | hc)
  · exact hnd hc
  · obtain ⟨j2, hj2g, hJj2, hv2⟩ := hc
    have hj2len : j2 < stages.length :=
      List.mem_range.mp (hvalid.mem_iff.mp (List.mem_flatten.mpr ⟨gJ, hgJ, hj2g⟩))
    exact hJmax j2 hJj2 hj2len hv2
  · rw [last_use_after_self hJ] at hc
    exact absurd hc.2 (by simp)

/-- Witness for C1: a single stage reading the donated global `7` marks it
donatable, and some stage at or after its (only) reading stage does so. -/
theorem claim_C1_last_donation_after_all_reads_witness :
    ∃ m, 0 ≤ m ∧ marked_donatable [⟨[7], []⟩]
      (split_donate_invars [true] [7] [⟨[7], []⟩] [[0]]) m 7 :=
  claim_C1_last_donation_after_all_reads [true] [7] [⟨[7], []⟩] [[0]] (by decide)
    7 0 0 ⟨[true], 0, by decide, by decide, by decide⟩ (by decide) (by decide)

/-- Claim C2: in every stage's returned donation sequence, a position holding
a global input whose caller-supplied donation flag is false carries `false`. -/
theorem claim_C2_nondonated_global_stays_false (donated_invars : List Bool)
    (global_invars : List Var) (stages : List JaxPipelineStage)
    (pattern : List (List Nat)) (v : Var)
    (hglobal : spec_global_not_donated donated_invars global_invars v)
    (i k : Nat) (st : List Bool)
    (hst : (split_donate_invars donated_invars global_invars stages pattern)[i]? =
      some (some st))
    (hkv : ((stages.getD i default).invars)[k]? = some v) :
    st[k]? = some false := by
  obtain ⟨ul, mc, hform⟩ :=
    split_donate_invars_status_image donated_invars global_invars stages pattern i st hst
  subst hform
  rw [stage_donate_status, List.getElem?_map, hkv, Option.map_some',
    if_pos (Or.inl (mem_not_donated_of_iff.mpr hglobal))]

/-- Witness for C2: the non-donated global `5` gets `false` in the stage that
reads it. -/
theorem claim_C2_nondonated_global_stays_false_witness :
    (split_donate_invars [false] [5] [⟨[5], []⟩] [[0]])[0]? = some (some [false]) ∧
      (([false] : List Bool))[0]? = some false :=
  ⟨by decide,
    claim_C2_nondonated_global_stays_false [false] [5] [⟨[5], []⟩] [[0]] 5
      ⟨0, by decide, by decide⟩ 0 0 [false] (by decide) (by decide)⟩

/-- Claim C3: on a valid input, each stage's returned donation sequence is
parallel to its invars and a position is `true` exactly when the spec's
refusal rule (non-donated global, read later in the serial group, or
main-copy variable with a later global last use) does not apply. -/
theorem claim_C3_reverse_walk_characterization (donated_invars : List Bool)
    (global_invars : List Var) (stages : List JaxPipelineStage)
    (pattern : List (List Nat))
    (hvalid : pattern.flatten.Perm (List.range stages.length))
    (g : List Nat) (hg : g ∈ pattern) (i : Nat) (hig : i ∈ g) :
    ∃ st : List Bool,
      (split_donate_invars donated_invars global_invars stages pattern)[i]? =
        some (some st) ∧
      st.length = (stages.getD i default).invars.length ∧
      ∀ (k : Nat) (v : Var), ((stages.getD i default).invars)[k]? = some v →
        (st[k]? = some true ↔
          ¬ spec_not_donatable donated_invars global_invars stages g i v) := by
  have hi : i < stages.length :=
    List.mem_range.mp (hvalid.mem_iff.mp (List.mem_flatten.mpr ⟨g, hg, hig⟩))
  obtain ⟨g2, hg2, hig2, st, hst, hlen, hiff⟩ :=
    split_donate_invars_char donated_invars global_invars stages pattern hvalid i hi
  have hflat_nodup : pattern.flatten.Nodup := hvalid.nodup_iff.mpr (List.nodup_range _)
  have hgg : g2 = g := group_unique hflat_nodup hg2 hg hig2 hig
  subst hgg
  refine ⟨st, hst, hlen, ?_⟩
  intro k v hkv
  rw [hiff k v hkv, not_donatable_cond_iff_spec]

/-- Witness for C3 at a concrete two-stage serial group. -/
theorem claim_C3_reverse_walk_characterization_witness :
    ∃ st : List Bool,
      (split_donate_invars [true] [3] [⟨[3], [4]⟩, ⟨[4], []⟩] [[0, 1]])[0]? =
        some (some st) ∧
      st.length = (([⟨[3], [4]⟩, ⟨[4], []⟩] :
        List JaxPipelineStage).getD 0 default).invars.length ∧
      ∀ (k : Nat) (v : Var),
        ((([⟨[3], [4]⟩, ⟨[4], []⟩] :
          List JaxPipelineStage).getD 0 default).invars)[k]? = some v →
        (st[k]? = some true ↔
          ¬ spec_not_donatable [true] [3] [⟨[3], [4]⟩, ⟨[4], []⟩] [0, 1] 0 v) :=
  claim_C3_reverse_walk_characterization [true] [3] [⟨[3], [4]⟩, ⟨[4], []⟩] [[0, 1]]
    (by decide) [0, 1] (by decide) 0 (by decide)

/-- Claim C8: on a valid input the analyzer returns one entry per stage, in
stage order, each filled with a boolean sequence parallel to that stage's
input-variable list. -/
theorem claim_C8_one_sequence_per_stage (donated_invars : List Bool)
    (global_invars : List Var) (stages : List JaxPipelineStage)
    (pattern : List (List Nat))
    (hvalid : pattern.flatten.Perm (List.range stages.length)) :
    (split_donate_invars donated_invars global_invars stages pattern).length =
      stages.length ∧
    ∀ i, i < stages.length → ∃ st : List Bool,
      (split_donate_invars donated_invars global_invars stages pattern)[i]? =
        some (some st) ∧
      st.length = (stages.getD i default).invars.length := by
  refine ⟨split_donate_invars_length _ _ _ _, ?_⟩
  intro i hi
  obtain ⟨g, hg, hig, st, hst, hlen, _⟩ :=
    split_donate_invars_char donated_invars global_invars stages pattern hvalid i hi
  exact ⟨st, hst, hlen⟩

/-- Witness for C8 on a two-stage, two-group pattern. -/
theorem claim_C8_one_sequence_per_stage_witness :
    (split_donate_invars [true] [3] [⟨[3], [4]⟩, ⟨[4], []⟩] [[1], [0]]).length =
      ([⟨[3], [4]⟩, ⟨[4], []⟩] : List JaxPipelineStage).length ∧
    ∀ i, i < ([⟨[3], [4]⟩, ⟨[4], []⟩] : List JaxPipelineStage).length →
      ∃ st : List Bool,
        (split_donate_invars [true] [3] [⟨[3], [4]⟩, ⟨[4], []⟩] [[1], [0]])[i]? =
          some (some st) ∧
        st.length = (([⟨[3], [4]⟩, ⟨[4], []⟩] :
          List JaxPipelineStage).getD i default).invars.length :=
  claim_C8_one_sequence_per_stage [true] [3] [⟨[3], [4]⟩, ⟨[4], []⟩] [[1], [0]]
    (by decide)

lemma foldl_process_group_perm (stages : List JaxPipelineStage) (nd : List Var) :
    ∀ {p1 p2 : List (List Nat)}, List.Forall₂ List.Perm p1 p2 →
      ∀ ans, p1.foldl (process_group stages nd) ans =
        p2.foldl (process_group stages nd) ans := by
  intro p1 p2 h
  induction h with
  | nil => intro ans; rfl
  | @cons g1 g2 t1 t2 h1 h2 ih =>
    intro ans
    rw [List.foldl_cons, List.foldl_cons]
    have hpg : process_group stages nd ans g1 = process_group stages nd ans g2 := by
      simp only [process_group]
      rw [insertionSort_eq_of_perm h1]
    rw [hpg]
    exact ih _

/-- Claim C9: reordering the indices inside each serial group leaves the
analyzer output unchanged, because each group is sorted ascending before the
reverse walk. -/
theorem claim_C9_group_order_invariance (donated_invars : List Bool)
    (global_invars : List Var) (stages : List JaxPipelineStage)
    (p1 p2 : List (List Nat)) (h : List.Forall₂ List.Perm p1 p2) :
    split_donate_invars donated_invars global_invars stages p1 =
      split_donate_invars donated_invars global_invars stages p2 := by
  rw [split_donate_invars, split_donate_invars]
  exact foldl_process_group_perm _ _ h _

/-- Witness for C9: swapping the order inside a serial group changes nothing. -/
theorem claim_C9_group_order_invariance_witness :
    split_donate_invars [true] [3] [⟨[3], [4]⟩, ⟨[4], []⟩] [[1, 0]] =
      split_donate_invars [true] [3] [⟨[3], [4]⟩, ⟨[4], []⟩] [[0, 1]] :=
  claim_C9_group_order_invariance [true] [3] [⟨[3], [4]⟩, ⟨[4], []⟩] [[1, 0]] [[0, 1]]
    (List.Forall₂.cons (by decide) List.Forall₂.nil)

/-- Structural description of the marker scan: the index of the last
gradient-marker equation of the list, if any. -/
def last_marker : List JEqn → Option Nat
  | [] => none
  | e :: rest =>
    match last_marker rest with
    | some j => some (j + 1)
    | none => if is_grad_marker e then some 0 else none

lemma find_split_from_eq (es : List JEqn) :
    ∀ (i : Nat) (acc : Option (Nat × JEqn)),
      find_split_from i acc es =
        (last_marker es).elim acc (fun j => some (i + j, es.getD j default)) := by
  induction es with
  | nil => intro i acc; rfl
  | cons e rest ih =>
    intro i acc
    rw [find_split_from, ih]
    cases h : last_marker rest with
    | some j =>
      simp only [last_marker, h, Option.elim, List.getD_cons_succ]
      have he : i + 1 + j = i + (j + 1) := by omega
      rw [he]
    | none =>
      by_cases hv : is_grad_marker e <;> simp [last_marker, h, hv]

lemma find_split_eq (es : List JEqn) :
    find_split es = (last_marker es).elim none (fun j => some (j, es.getD j default)) := by
  rw [find_split, find_split_from_eq]
  cases last_marker es <;> simp

lemma last_marker_none :
    ∀ (es : List JEqn), last_marker es = none →
      ∀ k, k < es.length → is_grad_marker (es.getD k default) = false := by
  intro es
  induction es with
  | nil => intro _ k hk; simp at hk
  | cons e rest ih =>
    intro h k hk
    rw [last_marker] at h
    cases hr : last_marker rest with
    | some j0 => rw [hr] at h; simp at h
    | none =>
      rw [hr] at h
      by_cases hv : is_grad_marker e
      · rw [if_pos hv] at h; simp at h
      · cases k with
        | zero => simpa using hv
        | succ k0 =>
          simp only [List.getD_cons_succ]
          exact ih hr k0 (by simp only [List.length_cons] at hk; omega)

lemma last_marker_eq_none (es : List JEqn)
    (h : ∀ e ∈ es, is_grad_marker e = false) : last_marker es = none := by
  induction es with
  | nil => rfl
  | cons e rest ih =>
    rw [last_marker, ih (fun x hx => h x (List.mem_cons_of_mem e hx)),
      h e (List.mem_cons_self e rest)]
    simp

lemma last_marker_spec :
    ∀ (es : List JEqn) (j : Nat), last_marker es = some j →
      j < es.length ∧ is_grad_marker (es.getD j default) = true ∧
        ∀ k, j < k → k < es.length → is_grad_marker (es.getD k default) = false := by
  intro es
  induction es with
  | nil => intro j h; simp [last_marker] at h
  | cons e rest ih =>
    intro j h
    rw [last_marker] at h
    cases hr : last_marker rest with
    | some j0 =>
      rw [hr] at h
      injection h with h
      subst h
      obtain ⟨h1, h2, h3⟩ := ih j0 hr
      refine ⟨by simp only [List.length_cons]; omega,
        by simpa [List.getD_cons_succ] using h2, ?_⟩
      intro k hk hkl
      cases k with
      | zero => omega
      | succ k0 =>
        simp only [List.getD_cons_succ]
        exact h3 k0 (by omega) (by simp only [List.length_cons] at hkl; omega)
    | none =>
      rw [hr] at h
      by_cases hv : is_grad_marker e
      · rw [if_pos hv] at h
        injection h with h
        subst h
        refine ⟨by simp, by simpa using hv, ?_⟩
        intro k hk hkl
        cases k with
        | zero => omega
        | succ k0 =>
          simp only [List.getD_cons_succ]
          exact last_marker_none rest hr k0
            (by simp only [List.length_cons] at hkl; omega)
      · rw [if_neg hv] at h; simp at h

lemma last_marker_of_mem :
    ∀ (es : List JEqn) (i : Nat), i < es.length →
      is_grad_marker (es.getD i default) = true →
      ∃ j, last_marker es = some j ∧ i ≤ j := by
  intro es
  induction es with
  | nil => intro i hi; simp at hi
  | cons e rest ih =>
    intro i hi hm
    cases hr : last_marker rest with
    | some j0 =>
      refine ⟨j0 + 1, by rw [last_marker, hr], ?_⟩
      cases i with
      | zero => omega
      | succ k =>
        obtain ⟨j, hj, hk⟩ := ih k (by simp only [List.length_cons] at hi; omega)
          (by simpa [List.getD_cons_succ] using hm)
        rw [hr] at hj
        injection hj with hj
        omega
    | none =>
      cases i with
      | zero =>
        exact ⟨0, by rw [last_marker, hr, if_pos (by simpa using hm)], Nat.le_refl 0⟩
      | succ k =>
        have hk : k < rest.length := by simp only [List.length_cons] at hi; omega
        have hmk : is_grad_marker (rest.getD k default) = true := by
          rw [List.getD_cons_succ] at hm
          exact hm
        rw [last_marker_none rest hr k hk] at hmk
        exact absurd hmk (by simp)

/-- Claim C4: with no gradient-barrier equation in the graph,
`split_compute_and_apply` does not fail: it returns the whole graph as the
compute part, an empty graph as the apply part and no barrier, and takes the
diagnostic-warning branch. -/
theorem claim_C4_no_barrier_soft_fallback (cj : ClosedJaxpr)
    (h : ∀ e ∈ cj.jaxpr.eqns, is_grad_marker e = false) :
    split_compute_and_apply cj = (cj, empty_closed_jaxpr, none) ∧
      split_missing_barrier_warning cj = true := by
  have hn : find_split cj.jaxpr.eqns = none := by
    rw [find_split_eq, last_marker_eq_none _ h]
    rfl
  constructor
  · rw [split_compute_and_apply, hn]
  · rw [split_missing_barrier_warning, hn]
    rfl

/-- Witness for C4 on a one-equation graph without a barrier. -/
theorem claim_C4_no_barrier_soft_fallback_witness :
    split_compute_and_apply
        ⟨⟨[], [1], [2], [⟨JPrimitive.other 3, none, [1], [2]⟩]⟩, []⟩ =
      (⟨⟨[], [1], [2], [⟨JPrimitive.other 3, none, [1], [2]⟩]⟩, []⟩,
        empty_closed_jaxpr, none) ∧
      split_missing_barrier_warning
        ⟨⟨[], [1], [2], [⟨JPrimitive.other 3, none, [1], [2]⟩]⟩, []⟩ = true :=
  claim_C4_no_barrier_soft_fallback
    ⟨⟨[], [1], [2], [⟨JPrimitive.other 3, none, [1], [2]⟩]⟩, []⟩ (by decide)

/-- Claim C5: with a gradient barrier present, the function returns the graph
built from exactly the equations before the barrier, the barrier equation
itself, and the graph built from exactly the equations after it. -/
theorem claim_C5_three_way_split (cj : ClosedJaxpr)
    (h : ∃ e ∈ cj.jaxpr.eqns, is_grad_marker e = true) :
    ∃ idx, idx < cj.jaxpr.eqns.length ∧
      is_grad_marker (cj.jaxpr.eqns.getD idx default) = true ∧
      split_compute_and_apply cj =
        (slice_to_jaxpr (cj.jaxpr.eqns.take idx),
         slice_to_jaxpr (cj.jaxpr.eqns.drop (idx + 1)),
         some (cj.jaxpr.eqns.getD idx default)) ∧
      (split_compute_and_apply cj).1.jaxpr.eqns = cj.jaxpr.eqns.take idx ∧
      (split_compute_and_apply cj).2.1.jaxpr.eqns = cj.jaxpr.eqns.drop (idx + 1) := by
  obtain ⟨e, he, hm⟩ := h
  obtain ⟨i, hi⟩ := List.mem_iff_getElem?.mp he
  have hilen : i < cj.jaxpr.eqns.length := (List.getElem?_eq_some_iff.mp hi).1
  have hgd : is_grad_marker (cj.jaxpr.eqns.getD i default) = true := by
    rw [List.getD_eq_getElem?_getD, hi]
    exact hm
  obtain ⟨j, hj, hij⟩ := last_marker_of_mem _ i hilen hgd
  have hfind : find_split cj.jaxpr.eqns =
      some (j, cj.jaxpr.eqns.getD j default) := by
    rw [find_split_eq, hj]
    rfl
  obtain ⟨hjlen, hjm, _⟩ := last_marker_spec _ j hj
  refine ⟨j, hjlen, hjm, ?_, ?_, ?_⟩
  · rw [split_compute_and_apply, hfind]
  · rw [split_compute_and_apply, hfind]
    rfl
  · rw [split_compute_and_apply, hfind]
    rfl

/-- Three-equation graph whose middle equation is the gradient barrier. -/
def example_graph_with_barrier : ClosedJaxpr :=
  ⟨⟨[], [1], [4], [⟨JPrimitive.other 0, none, [1], [2]⟩,
    ⟨JPrimitive.pipeline, some "grad", [2], [3]⟩,
    ⟨JPrimitive.other 1, none, [3], [4]⟩]⟩, []⟩

/-- Witness for C5 on a graph with one barrier in the middle. -/
theorem claim_C5_three_way_split_witness :
    ∃ idx, idx < example_graph_with_barrier.jaxpr.eqns.length ∧
      is_grad_marker (example_graph_with_barrier.jaxpr.eqns.getD idx default) = true ∧
      split_compute_and_apply example_graph_with_barrier =
        (slice_to_jaxpr (example_graph_with_barrier.jaxpr.eqns.take idx),
         slice_to_jaxpr (example_graph_with_barrier.jaxpr.eqns.drop (idx + 1)),
         some (example_graph_with_barrier.jaxpr.eqns.getD idx default)) ∧
      (split_compute_and_apply example_graph_with_barrier).1.jaxpr.eqns =
        example_graph_with_barrier.jaxpr.eqns.take idx ∧
      (split_compute_and_apply example_graph_with_barrier).2.1.jaxpr.eqns =
        example_graph_with_barrier.jaxpr.eqns.drop (idx + 1) :=
  claim_C5_three_way_split example_graph_with_barrier (by decide)

/-- Claim C10: when several equations are tagged as gradient barriers, the
split happens at the LAST one: the returned barrier is the last marker
equation, no marker follows it, and every earlier equation (in particular
every earlier barrier) lands in the compute graph. -/
theorem claim_C10_splits_at_last_barrier (cj : ClosedJaxpr) (i : Nat)
    (hi : i < cj.jaxpr.eqns.length)
    (hm : is_grad_marker (cj.jaxpr.eqns.getD i default) = true) :
    ∃ idx, i ≤ idx ∧ idx < cj.jaxpr.eqns.length ∧
      is_grad_marker (cj.jaxpr.eqns.getD idx default) = true ∧
      (∀ k, idx < k → k < cj.jaxpr.eqns.length →
        is_grad_marker (cj.jaxpr.eqns.getD k default) = false) ∧
      (split_compute_and_apply cj).2.2 = some (cj.jaxpr.eqns.getD idx default) ∧
      ∀ k, k < idx →
        cj.jaxpr.eqns.getD k default ∈ (split_compute_and_apply cj).1.jaxpr.eqns := by
  obtain ⟨j, hj, hij⟩ := last_marker_of_mem _ i hi hm
  obtain ⟨hjlen, hjm, hjmax⟩ := last_marker_spec _ j hj
  have hfind : find_split cj.jaxpr.eqns =
      some (j, cj.jaxpr.eqns.getD j default) := by
    rw [find_split_eq, hj]
    rfl
  refine ⟨j, hij, hjlen, hjm, hjmax, ?_, ?_⟩
  · rw [split_compute_and_apply, hfind]
  · intro k hk
    rw [split_compute_and_apply, hfind]
    show cj.jaxpr.eqns.getD k default ∈ cj.jaxpr.eqns.take j
    have hklen : k < cj.jaxpr.eqns.length := by omega
    have hsome : (cj.jaxpr.eqns.take j)[k]? =
        some (cj.jaxpr.eqns.getD k default) := by
      rw [List.getElem?_take_of_lt hk, List.getElem?_eq_getElem hklen]
      simp [List.getD_eq_getElem?_getD, List.getElem?_eq_getElem hklen]
    exact List.getElem?_mem hsome

/-- Three-equation graph with barriers first and last. -/
def example_graph_two_barriers : ClosedJaxpr :=
  ⟨⟨[], [1], [4], [⟨JPrimitive.pipeline, some "grad", [1], [2]⟩,
    ⟨JPrimitive.other 0, none, [2], [3]⟩,
    ⟨JPrimitive.pipeline, some "grad", [3], [4]⟩]⟩, []⟩

/-- Witness for C10 on a graph with two barriers. -/
theorem claim_C10_splits_at_last_barrier_witness :
    ∃ idx, 0 ≤ idx ∧ idx < example_graph_two_barriers.jaxpr.eqns.length ∧
      is_grad_marker (example_graph_two_barriers.jaxpr.eqns.getD idx default) = true ∧
      (∀ k, idx < k → k < example_graph_two_barriers.jaxpr.eqns.length →
        is_grad_marker (example_graph_two_barriers.jaxpr.eqns.getD k default) = false) ∧
      (split_compute_and_apply example_graph_two_barriers).2.2 =
        some (example_graph_two_barriers.jaxpr.eqns.getD idx default) ∧
      ∀ k, k < idx →
        example_graph_two_barriers.jaxpr.eqns.getD k default ∈
          (split_compute_and_apply example_graph_two_barriers).1.jaxpr.eqns :=
  claim_C10_splits_at_last_barrier example_graph_two_barriers 0 (by decide) (by decide)

/-- Claim C6: with an odd number of sliced pipeline stages the stage-placement
step of `three_d_parallel_callable` fails with a construction error returned
directly to the caller. -/
theorem claim_C6_odd_stage_count_fails (stage_num : Nat)
    (hodd : stage_num % 2 ≠ 0) :
    stage_placement stage_num = Except.error "stage_num % 2 == 0" := by
  simp only [stage_placement]
  rw [if_neg hodd]

/-- Witness for C6 at three stages. -/
theorem claim_C6_odd_stage_count_fails_witness :
    stage_placement 3 = Except.error "stage_num % 2 == 0" :=
  claim_C6_odd_stage_count_fails 3 (by decide)

/-- Claim C7: for an even stage count, stage `i` and stage `N-1-i` are mapped
to the same mesh, stages in the first half keep their own index as mesh index,
every mesh index is below `N/2`, and the placement uses `N/2` meshes. -/
theorem claim_C7_mirrored_mesh_assignment (stage_num i : Nat)
    (heven : stage_num % 2 = 0) (hi : i < stage_num) :
    stage_to_mesh_entry stage_num i =
        stage_to_mesh_entry stage_num (stage_num - 1 - i) ∧
    (i < stage_num / 2 → stage_to_mesh_entry stage_num i = i) ∧
    stage_to_mesh_entry stage_num i < stage_num / 2 ∧
    stage_placement stage_num =
      Except.ok ((List.range stage_num).map (stage_to_mesh_entry stage_num),
        stage_num / 2) := by
  refine ⟨?_, ?_, ?_, ?_⟩
  · unfold stage_to_mesh_entry
    split <;> split <;> omega
  · intro h
    unfold stage_to_mesh_entry
    rw [if_pos (by omega)]
  · unfold stage_to_mesh_entry
    split <;> omega
  · simp only [stage_placement]
    rw [if_pos heven]

/-- Witness for C7 at four stages, stage 1. -/
theorem claim_C7_mirrored_mesh_assignment_witness :
    stage_to_mesh_entry 4 1 = stage_to_mesh_entry 4 (4 - 1 - 1) ∧
    (1 < 4 / 2 → stage_to_mesh_entry 4 1 = 1) ∧
    stage_to_mesh_entry 4 1 < 4 / 2 ∧
    stage_placement 4 =
      Except.ok ((List.range 4).map (stage_to_mesh_entry 4), 4 / 2) :=
  claim_C7_mirrored_mesh_assignment 4 1 (by decide) (by decide)

end ThreeDParallel
